import Mathlib

/-!
Verification of the selection engine, dispatcher and presentation layer of
the distributed command runner (dcr.go), as a shallow embedding in Lean.

Go values are modelled as follows: Go strings are Lean Strings (with the
byte-level operations strings.HasPrefix / strings.TrimPrefix modelled on the
character data), Go slices of servers are Lean lists, and the append-to-slice
filtering loops are foldl over the input list accumulating the kept elements.
The aliasing behaviour of the in-place slice idiom (filtered := servers[:0])
is modelled separately, where a claim is about the backing storage.
-/

namespace DCR

/-- Server (dcr.go lines 19-23): name, environment and a list of tags. -/
structure Server where
  name : String
  environment : String
  tags : List String
deriving DecidableEq, Repr

/-- Go strings.HasPrefix, modelled on the character data of the strings. -/
def goStartsWith (s p : String) : Bool :=
  p.data.isPrefixOf s.data

/-- Go strings.TrimPrefix: drops p from the front of s when present. -/
def goTrimStart (s p : String) : String :=
  if goStartsWith s p then ⟨s.data.drop p.data.length⟩ else s

/-- contains (dcr.go lines 50-58): linear scan of the tag list,
returning true at the first tag equal to expectedTag. -/
def contains (tags : List String) (expectedTag : String) : Bool :=
  match tags with
  | [] => false
  | tag :: rest => if tag == expectedTag then true else contains rest expectedTag

/-- filterByEnvironment (dcr.go lines 40-48): keeps the servers whose
environment field equals the given environment, appending in input order. -/
def filterByEnvironment (servers : List Server) (environment : String) : List Server :=
  servers.foldl
    (fun filtered server =>
      if server.environment == environment then filtered ++ [server] else filtered)
    []

/-- filterByTag (dcr.go lines 60-74): one pass over the servers; a tag
expression starting with an exclamation mark excludes servers holding the
trimmed tag, any other expression keeps servers holding the tag. -/
def filterByTag (servers : List Server) (tag : String) : List Server :=
  servers.foldl
    (fun filtered server =>
      if goStartsWith tag "!" then
        if !(contains server.tags (goTrimStart tag "!")) then filtered ++ [server]
        else filtered
      else
        if contains server.tags tag then filtered ++ [server] else filtered)
    []

/-- filterServers (dcr.go lines 112-122): environment stage only when the
environment string is non-empty, then one filterByTag pass per tag expression
when the expression list is non-empty (a nil and an empty Go slice both have
length zero, so both are the skipped case here). -/
def filterServers (servers : List Server) (environment : String) (tags : List String) :
    List Server :=
  let servers := if environment != "" then filterByEnvironment servers environment else servers
  if tags.length != 0 then tags.foldl (fun acc tag => filterByTag acc tag) servers else servers

/-- Predicate a single filterByTag pass keeps a server by (proof helper). -/
def tagPred (tag : String) (server : Server) : Bool :=
  if goStartsWith tag "!" then !(contains server.tags (goTrimStart tag "!"))
  else contains server.tags tag

/-- Predicate the whole filterServers pipeline keeps a server by
(proof helper). -/
def selPred (environment : String) (tags : List String) (server : Server) : Bool :=
  (if environment != "" then server.environment == environment else true) &&
    (if tags.length != 0 then tags.all (fun tag => tagPred tag server) else true)

theorem foldl_append_filter (p : Server → Bool) (l : List Server) :
    ∀ acc : List Server,
      l.foldl (fun filtered server => if p server then filtered ++ [server] else filtered) acc
        = acc ++ l.filter p := by
  induction l with
  | nil => intro acc; simp
  | cons a t ih =>
    intro acc
    simp only [List.foldl_cons, List.filter_cons]
    by_cases h : p a
    · simp [h, ih, List.append_assoc]
    · simp [h, ih]

theorem filterByEnvironment_eq_filter (servers : List Server) (environment : String) :
    filterByEnvironment servers environment
      = servers.filter (fun server => server.environment == environment) := by
  have h := foldl_append_filter (fun server => server.environment == environment) servers []
  rw [List.nil_append] at h
  rw [filterByEnvironment]
  exact h

theorem filterByTag_eq_filter (servers : List Server) (tag : String) :
    filterByTag servers tag = servers.filter (tagPred tag) := by
  have hfun :
      (fun (filtered : List Server) (server : Server) =>
        if goStartsWith tag "!" then
          if !(contains server.tags (goTrimStart tag "!")) then filtered ++ [server]
          else filtered
        else
          if contains server.tags tag then filtered ++ [server] else filtered)
      = fun filtered server => if tagPred tag server then filtered ++ [server] else filtered := by
    funext filtered server
    unfold tagPred
    by_cases h : goStartsWith tag "!" <;> simp [h]
  calc filterByTag servers tag
      = servers.foldl
          (fun filtered server => if tagPred tag server then filtered ++ [server] else filtered)
          [] := by rw [filterByTag, hfun]
    _ = servers.filter (tagPred tag) := by
          have h := foldl_append_filter (tagPred tag) servers []
          rw [List.nil_append] at h
          exact h

theorem foldl_filterByTag_eq_filter (tags : List String) :
    ∀ servers : List Server,
      tags.foldl (fun acc tag => filterByTag acc tag) servers
        = servers.filter (fun server => tags.all (fun tag => tagPred tag server)) := by
  induction tags with
  | nil =>
    intro servers
    simp
  | cons t ts ih =>
    intro servers
    simp only [List.foldl_cons]
    rw [ih, filterByTag_eq_filter, List.filter_filter]
    apply List.filter_congr
    intro server _
    simp [List.all_cons, Bool.and_comm]

theorem filterServers_eq_filter (servers : List Server) (environment : String)
    (tags : List String) :
    filterServers servers environment tags = servers.filter (selPred environment tags) := by
  simp only [filterServers]
  by_cases henv : (environment != "") = true
  · by_cases htags : (tags.length != 0) = true
    · rw [if_pos henv, if_pos htags, filterByEnvironment_eq_filter,
        foldl_filterByTag_eq_filter, List.filter_filter]
      apply List.filter_congr
      intro server _
      simp [selPred, henv, htags, Bool.and_comm]
    · rw [if_pos henv, if_neg htags, filterByEnvironment_eq_filter]
      apply List.filter_congr
      intro server _
      simp [selPred, henv, htags]
  · by_cases htags : (tags.length != 0) = true
    · rw [if_neg henv, if_pos htags, foldl_filterByTag_eq_filter]
      apply List.filter_congr
      intro server _
      simp [selPred, henv, htags]
    · rw [if_neg henv, if_neg htags]
      have hsel : ∀ server ∈ servers, (fun _ : Server => true) server
          = selPred environment tags server := by
        intro server _
        simp [selPred, henv, htags]
      rw [← List.filter_congr hsel, List.filter_true]

/-- Scenario inventory from the specification: A in prod with tag db. -/
def serverA : Server := ⟨"A", "prod", ["db"]⟩

/-- Scenario inventory from the specification: B in staging with tag web. -/
def serverB : Server := ⟨"B", "staging", ["web"]⟩

/-- Scenario inventory from the specification: C in prod with tags web, db. -/
def serverC : Server := ⟨"C", "prod", ["web", "db"]⟩

/-- Scenario inventory I = [A, B, C] from the specification. -/
def invExample : List Server := [serverA, serverB, serverC]

theorem filterServers_no_env (I : List Server) (t : String) (ts : List String) :
    filterServers I "" (t :: ts) = (t :: ts).foldl (fun acc tag => filterByTag acc tag) I := by
  have htags : (((t :: ts).length != 0) = true) := by simp
  have henv : ¬((("" : String) != "") = true) := by simp
  simp only [filterServers]
  rw [if_pos htags, if_neg henv]

theorem goStartsWith_bang (t : String) : goStartsWith ("!" ++ t) "!" = true := by
  have h : "!".data = ['!'] := rfl
  simp [goStartsWith, String.data_append, h, List.isPrefixOf]

theorem goTrimStart_bang (t : String) : goTrimStart ("!" ++ t) "!" = t := by
  rw [goTrimStart, if_pos (goStartsWith_bang t)]
  have h : "!".data = ['!'] := rfl
  rw [String.data_append, h]
  rfl

/-- C2: with no tag expressions, a non-empty environment selects exactly the
servers whose environment field equals it, in input order, and the empty
environment leaves the inventory unchanged. -/
theorem environment_selection (I : List Server) (e : String) :
    (e ≠ "" → filterServers I e []
        = I.filter (fun server => server.environment == e)) ∧
      filterServers I "" [] = I := by
  constructor
  · intro h
    have henv : ((e != "") = true) := by simpa [bne_iff_ne] using h
    have htags : ¬((([] : List String).length != 0) = true) := by simp
    simp only [filterServers]
    rw [if_neg htags, if_pos henv]
    exact filterByEnvironment_eq_filter I e
  · simp [filterServers]

/-- C2 witness: on the scenario inventory, environment prod selects the
prod servers. -/
theorem environment_selection_witness :
    filterServers invExample "prod" []
      = invExample.filter (fun server => server.environment == "prod") :=
  (environment_selection invExample "prod").1 (by decide)

/-- C3 counterexample: for the tag expression t = "!x" (a tag name that itself
starts with the negation marker), selecting with [t] does not return the
servers whose tag set contains t: on the one-server inventory whose tags are
[y] the selection keeps the server although its tag set does not contain
the tag "!x". -/
theorem tag_claim_counterexample :
    ¬(filterServers [⟨"A", "", ["y"]⟩] "" ["!x"]
        = List.filter (fun server => contains server.tags "!x") [⟨"A", "", ["y"]⟩]) := by
  decide

/-- C3 (amended): for every inventory I and tag name t that does not itself
start with the negation marker, selecting with [t] keeps exactly the servers
whose tag set contains t, selecting with ["!" ++ t] keeps exactly the
complement within I of that set, and applying both expressions sequentially
yields the empty selection. -/
theorem tag_selection_amended (I : List Server) (t : String)
    (h : goStartsWith t "!" = false) :
    filterServers I "" [t] = I.filter (fun server => contains server.tags t) ∧
      filterServers I "" ["!" ++ t]
        = I.filter (fun server => !(contains server.tags t)) ∧
      filterServers I "" [t, "!" ++ t] = [] := by
  refine ⟨?_, ?_, ?_⟩
  · rw [filterServers_no_env, List.foldl_cons, List.foldl_nil, filterByTag_eq_filter]
    apply List.filter_congr
    intro server _
    simp [tagPred, h]
  · rw [filterServers_no_env, List.foldl_cons, List.foldl_nil, filterByTag_eq_filter]
    apply List.filter_congr
    intro server _
    simp [tagPred, goStartsWith_bang, goTrimStart_bang]
  · rw [filterServers_no_env, List.foldl_cons, List.foldl_cons, List.foldl_nil,
      filterByTag_eq_filter, filterByTag_eq_filter, List.filter_filter]
    have hfalse : ∀ server ∈ I,
        (tagPred ("!" ++ t) server && tagPred t server) = (fun _ : Server => false) server := by
      intro server _
      simp [tagPred, h, goStartsWith_bang, goTrimStart_bang]
    rw [List.filter_congr hfalse, List.filter_false]

/-- C3 witness: on the scenario inventory with tag web, inclusion selects
B and C, exclusion selects A, and both together select nothing. -/
theorem tag_selection_amended_witness :
    filterServers invExample "" ["web"]
        = invExample.filter (fun server => contains server.tags "web") ∧
      filterServers invExample "" ["!" ++ "web"]
        = invExample.filter (fun server => !(contains server.tags "web")) ∧
      filterServers invExample "" ["web", "!" ++ "web"] = [] :=
  tag_selection_amended invExample "web" (by decide)

/-- C6: filtering is idempotent; running the same selection on its own result
returns that result. -/
theorem selection_idempotent (I : List Server) (e : String) (tags : List String) :
    filterServers (filterServers I e tags) e tags = filterServers I e tags := by
  simp only [filterServers_eq_filter, List.filter_filter]
  apply List.filter_congr
  intro server _
  simp

/-- C7: selection is order-preserving; the surviving servers form a sublist of
the input inventory, so their relative order matches the input and nothing is
reordered at any filter stage. -/
theorem selection_order_preserving (I : List Server) (e : String) (tags : List String) :
    (filterServers I e tags).Sublist I := by
  rw [filterServers_eq_filter]
  exact List.filter_sublist I

/-- C1 (code bug evidence): a single empty-string tag expression, as produced
by splitting an empty tags flag, is not special-cased by filterServers: it
demands membership of the empty-string tag, so it empties an inventory whose
server has no empty tag, while an empty expression list keeps the server. -/
theorem empty_tag_expression_filters_all :
    filterServers [⟨"A", "prod", ["db"]⟩] "" [""] = [] ∧
      filterServers [⟨"A", "prod", ["db"]⟩] "" [] = [⟨"A", "prod", ["db"]⟩] := by
  decide

/-- One step of the in-place filtering loop of filterByEnvironment: the loop
body reads the server at index i of the shared backing array and, when its
environment matches, writes it to slot k of the same array (proof helper for
the slice-aliasing model). -/
def filterEnvStep (environment : String) (st : List Server × Nat) (i : Nat) :
    List Server × Nat :=
  let server := st.1.getD i ⟨"", "", []⟩
  if server.environment == environment then (st.1.set st.2 server, st.2 + 1) else st

/-- Slice-aliasing model of filterByEnvironment (dcr.go lines 40-48): the Go
idiom filtered := servers[:0] shares the backing array of the input slice, and
each append writes the kept server into the next slot of that shared array.
Returns the value of the filtered slice together with the contents the
caller's input slice sees after the call. -/
def filterByEnvironmentInPlace (servers : List Server) (environment : String) :
    List Server × List Server :=
  let final := (List.range servers.length).foldl (filterEnvStep environment) (servers, 0)
  (final.1.take final.2, final.1)

/-- C5 (code bug evidence): the in-place filtering overwrites the caller's
inventory. On the inventory [A in dev, B in prod], filtering for prod returns
the value [B] but leaves the input slice holding [B, B], which differs from
the original inventory; the returned value itself agrees with the pure
filterByEnvironment. -/
theorem selection_mutates_input_backing :
    filterByEnvironmentInPlace [⟨"A", "dev", []⟩, ⟨"B", "prod", []⟩] "prod"
        = ([⟨"B", "prod", []⟩], [⟨"B", "prod", []⟩, ⟨"B", "prod", []⟩]) ∧
      ([⟨"B", "prod", []⟩, ⟨"B", "prod", []⟩] : List Server)
        ≠ [⟨"A", "dev", []⟩, ⟨"B", "prod", []⟩] ∧
      (filterByEnvironmentInPlace [⟨"A", "dev", []⟩, ⟨"B", "prod", []⟩] "prod").1
        = filterByEnvironment [⟨"A", "dev", []⟩, ⟨"B", "prod", []⟩] "prod" := by
  decide

/-- Loop body of listNamesOutput (dcr.go lines 78-83): appends the server
name of the current (index, server) pair to the buffer, followed by a comma
whenever the index is below the last index of the whole list. -/
def namesStep (total : Nat) (buffer : String) (p : Nat × Server) : String :=
  let buffer := buffer ++ p.2.name
  if p.1 < total - 1 then buffer ++ "," else buffer

/-- listNamesOutput (dcr.go lines 76-85): the printed line of the names
format, built by folding namesStep over the indexed servers. -/
def listNamesOutput (servers : List Server) : String :=
  servers.enum.foldl (namesStep servers.length) ""

/-- Modelled from the spec: server names joined by single commas, no trailing
comma and no wrapping container syntax (the refinement target the names
format is compared against). -/
def specNamesLine : List String → String
  | [] => ""
  | [n] => n
  | n :: rest => n ++ "," ++ specNamesLine rest

theorem namesStep_mid (total : Nat) (acc : String) (p : Nat × Server)
    (h : p.1 < total - 1) : namesStep total acc p = acc ++ p.2.name ++ "," := by
  simp [namesStep, h]

theorem namesStep_last (total : Nat) (acc : String) (p : Nat × Server)
    (h : ¬(p.1 < total - 1)) : namesStep total acc p = acc ++ p.2.name := by
  simp [namesStep, h]

theorem listNames_aux (total : Nat) (l : List Server) :
    ∀ (k : Nat) (acc : String), k + l.length = total →
      (List.enumFrom k l).foldl (namesStep total) acc
        = acc ++ specNamesLine (l.map Server.name) := by
  induction l with
  | nil =>
    intro k acc h
    simp [specNamesLine, String.append_empty]
  | cons a t ih =>
    intro k acc h
    rw [List.enumFrom, List.foldl_cons]
    cases t with
    | nil =>
      have hcond : ¬(k < total - 1) := by
        simp only [List.length_cons, List.length_nil] at h
        omega
      rw [namesStep_last total acc (k, a) hcond]
      simp [specNamesLine]
    | cons b t' =>
      have hcond : k < total - 1 := by
        simp only [List.length_cons] at h
        omega
      have h' : (k + 1) + (b :: t').length = total := by
        simp only [List.length_cons] at h ⊢
        omega
      rw [namesStep_mid total acc (k, a) hcond, ih (k + 1) (acc ++ a.name ++ ",") h']
      simp [specNamesLine, String.append_assoc]

/-- C9: the names output format renders the selection as the server names
joined by single commas with no trailing comma and no wrapping container
syntax, and on the filtered selection [A, C] of the scenario inventory it
renders exactly A,C. -/
theorem names_output_spec (servers : List Server) :
    listNamesOutput servers = specNamesLine (servers.map Server.name) ∧
      listNamesOutput [serverA, serverC] = "A,C" := by
  constructor
  · have h := listNames_aux servers.length servers 0 "" (by simp)
    rw [listNamesOutput, List.enum, h, String.empty_append]
  · decide

/-- ColorText: the result of the rgbterm.String call from the external colour
library, modelled as the rendered text with its foreground and background RGB
triples. -/
structure ColorText where
  text : String
  fg : Nat × Nat × Nat
  bg : Nat × Nat × Nat
deriving DecidableEq, Repr

/-- red (dcr.go lines 153-155). -/
def red : Nat × Nat × Nat := (255, 0, 0)

/-- green (dcr.go lines 157-159). -/
def green : Nat × Nat × Nat := (0, 255, 0)

/-- white (dcr.go lines 161-163). -/
def white : Nat × Nat × Nat := (255, 255, 255)

/-- colorizeExitCode (dcr.go lines 165-172): the decimal rendering of the
exit code (strconv.Itoa) with white foreground and green background, the
background switched to red when the exit code is non-zero. -/
def colorizeExitCode (exitCode : Int) : ColorText :=
  let f := white
  let b := if exitCode != 0 then red else green
  ⟨toString exitCode, f, b⟩

/-- C10: for every integer exit code the colorized indicator is the decimal
exit code in white foreground, over a green background when the exit code is
zero and over a red background otherwise. -/
theorem colorize_exit_code_spec (n : Int) :
    colorizeExitCode n = ⟨toString n, white, if n = 0 then green else red⟩ := by
  simp only [colorizeExitCode]
  by_cases h : n = 0
  · simp [h]
  · simp [h]

/-- WaitError: the error cmd.Wait can report, either an exec.ExitError whose
process state may carry a syscall.WaitStatus exit status, or any other
error. -/
inductive WaitError where
  | exitError (status : Option Int)
  | otherError (msg : String)
deriving DecidableEq, Repr

/-- HelperRun: the observable behaviour of one invocation of the external
remote-execution helper subprocess: the error cmd.Start failed with if any,
the error cmd.Wait reported if any, and the captured output streams. -/
structure HelperRun where
  startError : Option String
  waitError : Option WaitError
  stdout : String
  stderr : String
deriving DecidableEq, Repr

/-- Exit-code extraction of execCommand (dcr.go lines 128 and 141-148): exit
stays zero unless cmd.Wait reports an exec.ExitError carrying a
syscall.WaitStatus, in which case that status is used. -/
def extractExit (waitError : Option WaitError) : Int :=
  match waitError with
  | some (WaitError.exitError (some status)) => status
  | _ => 0

/-- execCommand (dcr.go lines 124-151): a cmd.Start failure hits log.Fatalf,
modelled as the fatal error branch carrying the diagnostic; otherwise the
call returns the extracted exit code and the captured stdout and stderr. -/
def execCommand (run : HelperRun) : Except String (Int × String × String) :=
  match run.startError with
  | some e => Except.error ("cmd.Start: " ++ e)
  | none => Except.ok (extractExit run.waitError, run.stdout, run.stderr)

/-- Exec-mode loop of main (dcr.go lines 237-243): each selected server is
dispatched in order through execCommand, the helper behaviour of each server
given by the oracle runOf; a fatal launch failure aborts the loop, otherwise
every server yields its dispatch result. -/
def runExec (runOf : Server → HelperRun) : List Server →
    Except String (List (Server × Int × String × String))
  | [] => Except.ok []
  | server :: rest =>
    match execCommand (runOf server) with
    | Except.error e => Except.error e
    | Except.ok r =>
      match runExec runOf rest with
      | Except.error e => Except.error e
      | Except.ok rs => Except.ok ((server, r) :: rs)

/-- Process exit status of an exec run (dcr.go lines 139, 244-245 and 250):
log.Fatalf exits the process with status 1, while normal completion of the
action returns nil and the process exits with status 0. -/
def processExit (runOf : Server → HelperRun) (servers : List Server) : Int :=
  match runExec runOf servers with
  | Except.error _ => 1
  | Except.ok _ => 0

theorem runExec_ok_of_all_started (runOf : Server → HelperRun) :
    ∀ servers : List Server, (∀ x ∈ servers, (runOf x).startError = none) →
      runExec runOf servers = Except.ok (servers.map fun x =>
        (x, extractExit (runOf x).waitError, (runOf x).stdout, (runOf x).stderr)) := by
  intro servers
  induction servers with
  | nil => intro _; rfl
  | cons a t ih =>
    intro h
    have ha : (runOf a).startError = none := h a (by simp)
    have ht := ih (fun x hx => h x (by simp [hx]))
    simp only [runExec, execCommand, ha, ht, List.map_cons]

theorem runExec_append_launch_failure (runOf : Server → HelperRun) (server : Server)
    (msg : String) (hfail : (runOf server).startError = some msg) :
    ∀ pre : List Server, (∀ x ∈ pre, (runOf x).startError = none) → ∀ post : List Server,
      runExec runOf (pre ++ server :: post) = Except.error ("cmd.Start: " ++ msg) := by
  intro pre
  induction pre with
  | nil =>
    intro _ post
    simp only [List.nil_append, runExec, execCommand, hfail]
  | cons a t ih =>
    intro h post
    have ha : (runOf a).startError = none := h a (by simp)
    have ht := ih (fun x hx => h x (by simp [hx])) post
    simp only [List.cons_append, runExec, execCommand, ha, List.append_eq, ht]

/-- C4: a helper launch failure aborts the run at that server with the
diagnostic and a non-zero process exit status, whatever servers are still
queued behind it; and when every launch succeeds the run completes with one
per-server dispatch result each and process exit status zero, regardless of
the individual remote exit codes. -/
theorem launch_failure_fatal (runOf : Server → HelperRun) (pre post : List Server)
    (server : Server) (msg : String)
    (hpre : ∀ x ∈ pre, (runOf x).startError = none)
    (hfail : (runOf server).startError = some msg) :
    runExec runOf (pre ++ server :: post) = Except.error ("cmd.Start: " ++ msg) ∧
      processExit runOf (pre ++ server :: post) = 1 ∧
      ∀ servers : List Server, (∀ x ∈ servers, (runOf x).startError = none) →
        runExec runOf servers = Except.ok (servers.map fun x =>
          (x, extractExit (runOf x).waitError, (runOf x).stdout, (runOf x).stderr)) ∧
        processExit runOf servers = 0 := by
  refine ⟨?_, ?_, ?_⟩
  · exact runExec_append_launch_failure runOf server msg hfail pre hpre post
  · simp only [processExit, runExec_append_launch_failure runOf server msg hfail pre hpre post]
  · intro servers h
    refine ⟨runExec_ok_of_all_started runOf servers h, ?_⟩
    simp only [processExit, runExec_ok_of_all_started runOf servers h]

/-- Helper behaviour oracle for the C4 witness: the server named bad fails to
launch its helper, every other server runs a helper that reports remote exit
code 2. -/
def witnessRunOf (server : Server) : HelperRun :=
  if server.name == "bad" then ⟨some "no such file", none, "", ""⟩
  else ⟨none, some (WaitError.exitError (some 2)), "ok\n", ""⟩

/-- C4 witness: with A launched fine, the server named bad failing to launch
and B queued after it, the run aborts with the diagnostic and exit status 1;
runs whose every launch succeeds finish with exit status zero. -/
theorem launch_failure_fatal_witness :
    runExec witnessRunOf ([serverA] ++ (⟨"bad", "prod", []⟩ : Server) :: [serverB])
        = Except.error ("cmd.Start: " ++ "no such file") ∧
      processExit witnessRunOf ([serverA] ++ (⟨"bad", "prod", []⟩ : Server) :: [serverB]) = 1 ∧
      ∀ servers : List Server, (∀ x ∈ servers, (witnessRunOf x).startError = none) →
        runExec witnessRunOf servers = Except.ok (servers.map fun x =>
          (x, extractExit (witnessRunOf x).waitError,
            (witnessRunOf x).stdout, (witnessRunOf x).stderr)) ∧
        processExit witnessRunOf servers = 0 :=
  launch_failure_fatal witnessRunOf [serverA] [serverB] ⟨"bad", "prod", []⟩ "no such file"
    (by decide) (by decide)

/-- C8: when the helper starts but cmd.Wait reports an error that is not an
exec.ExitError, or an exec.ExitError whose process state carries no
syscall.WaitStatus, execCommand returns exit code 0 together with the
captured stdout and stderr, and exit code 0 renders with the success
indicator, white on green. -/
theorem wait_error_reported_as_success (run : HelperRun) (msg : String)
    (hstart : run.startError = none)
    (hwait : run.waitError = some (WaitError.otherError msg) ∨
      run.waitError = some (WaitError.exitError none)) :
    execCommand run = Except.ok (0, run.stdout, run.stderr) ∧
      colorizeExitCode 0 = ⟨"0", white, green⟩ := by
  constructor
  · simp only [execCommand, hstart]
    rcases hwait with h | h <;> simp [extractExit, h]
  · rfl

/-- C8 witness: a run whose cmd.Wait reports a non-ExitError failure is
reported as exit code 0 with its captured streams. -/
theorem wait_error_reported_as_success_witness :
    execCommand ⟨none, some (WaitError.otherError "i/o timeout"), "out", "boom"⟩
        = Except.ok (0, "out", "boom") ∧
      colorizeExitCode 0 = ⟨"0", white, green⟩ :=
  wait_error_reported_as_success
    ⟨none, some (WaitError.otherError "i/o timeout"), "out", "boom"⟩
    "i/o timeout" rfl (Or.inl rfl)

end DCR
